import Mathlib

/-!
Verification development for the InsightAgent PDF question-answering backend.

The definitions below are a shallow embedding of the persisted-store variant of
the pipeline (`backend/app/services/pdf_service.py`, `vector_store.py`,
`llm_service.py`).  Python strings are modelled as `List Char`, machine floats
as exact rationals `ℚ`, and the external embedding capability as an arbitrary
function parameter.  The theorems at the end of the file settle the frozen
claims C1–C10 about this code.
-/

namespace InsightAgent

/-- ASCII whitespace matched by the regex class `\s` used in
`re.sub(r'\s+', ' ', text)` and `re.split(r'(?<=[.!?])\s+', text)`. -/
def isRegexWs (c : Char) : Bool :=
  c == ' ' || c == '\t' || c == '\n' || c == '\r' || c == '\x0b' || c == '\x0c'

/-- Characters stripped by Python `str.strip()` (ASCII whitespace plus the
information-separator controls 0x1c–0x1f; exotic Unicode whitespace never
occurs in the inputs this development evaluates). -/
def isStrWs (c : Char) : Bool :=
  isRegexWs c || c == '\x1c' || c == '\x1d' || c == '\x1e' || c == '\x1f' || c == '\x85'

/-- Python `text.strip()`: remove whitespace from both ends. -/
def pyStrip (t : List Char) : List Char :=
  ((t.dropWhile isStrWs).reverse.dropWhile isStrWs).reverse

/-- Helper of `collapseWs`: the flag records whether the previous character
belonged to a whitespace run whose single replacement space was already
emitted. -/
def collapseWsAux : Bool → List Char → List Char
  | _, [] => []
  | prevWs, c :: rest =>
    if isRegexWs c then
      if prevWs then collapseWsAux true rest
      else ' ' :: collapseWsAux true rest
    else c :: collapseWsAux false rest

/-- Python `re.sub(r'\s+', ' ', text)`: collapse every maximal run of
whitespace into a single space. -/
def collapseWs (t : List Char) : List Char :=
  collapseWsAux false t

/-- `PDFService._clean_text`: keep characters `>= ' '` plus newline/tab,
collapse whitespace runs to single spaces, trim both ends. -/
def cleanText (t : List Char) : List Char :=
  pyStrip (collapseWs (t.filter (fun c => decide (' ' ≤ c) || c == '\n' || c == '\t')))

/-- Sentence terminators of the split regex `(?<=[.!?])\s+`. -/
def isTerminator (c : Char) : Bool :=
  c == '.' || c == '!' || c == '?'

/-- Raw split of `re.split(r'(?<=[.!?])\s+', text)`: cut at every maximal
whitespace run immediately preceded by `.`, `!` or `?`; the separator run is
consumed, the terminator stays with the preceding piece.  The Boolean flag
is true while the tail of a separator run is still being consumed. -/
def splitSentRaw : Bool → List Char → List Char → List (List Char)
  | _, [], acc => [acc.reverse]
  | skipWs, c :: rest, acc =>
    if skipWs && isRegexWs c then splitSentRaw true rest acc
    else if isTerminator c &&
        (match rest.head? with | some r => isRegexWs r | none => false) then
      (acc.reverse ++ [c]) :: splitSentRaw true rest []
    else
      splitSentRaw false rest (c :: acc)

/-- `PDFService._split_into_sentences`: regex split, then strip each piece and
drop the empty ones. -/
def splitIntoSentences (t : List Char) : List (List Char) :=
  ((splitSentRaw false t []).map pyStrip).filter (fun s => !s.isEmpty)

/-- Python `text.find(c, start)`: index of the first occurrence of `c` at
position `start` or later (`none` for Python's `-1`). -/
def pyFind (t : List Char) (c : Char) (start : Nat) : Option Nat :=
  match (t.drop start).findIdx? (fun x => x == c) with
  | some j => some (start + j)
  | none => none

/-- `PDFService._get_overlap_text(text)` with `self.chunk_overlap = ov`:
if the text is at most `ov` characters return it whole; otherwise return the
suffix after the first space at position `len - ov` or later, falling back to
the raw last-`ov`-characters slice `text[-ov:]` (which in Python is the whole
string when `ov = 0`). -/
def getOverlapText (ov : Nat) (t : List Char) : List Char :=
  if t.length ≤ ov then t
  else
    match pyFind t ' ' (t.length - ov) with
    | some spacePos => t.drop (spacePos + 1)
    | none => if ov = 0 then t else t.drop (t.length - ov)

/-- Metadata of one chunk (`app.models.schemas.ChunkMetadata`).  The
`chunk_id` field, a random UUID, is omitted: no claim depends on it. -/
structure ChunkMeta where
  document_id : String
  document_name : String
  page_number : Nat
  chunk_index : Nat
  start_char : Int
  end_char : Int
  text : List Char
deriving Repr, DecidableEq, Inhabited

/-- Loop state of the sentence-accumulation loop in
`PDFService._create_chunks`. -/
structure CState where
  chunks : List ChunkMeta
  cur : List Char
  curStart : Int
  charPos : Int
  idx : Nat
deriving Repr, DecidableEq, Inhabited

/-- One iteration of the `for sentence in sentences` loop of
`PDFService._create_chunks`: either the sentence (plus a trailing space) still
fits in the buffer, or the buffer is flushed as a chunk (when its trimmed text
is non-empty) and the new buffer is seeded with the character-bounded overlap
followed by the sentence. -/
def chunkStep (S ov : Nat) (docId docName : String) (page : Nat)
    (st : CState) (s : List Char) : CState :=
  let sws := s ++ [' ']
  if st.cur.length + sws.length ≤ S then
    { st with cur := st.cur ++ sws, charPos := st.charPos + (sws.length : Int) }
  else
    let flushed := pyStrip st.cur
    let stF :=
      if flushed.isEmpty then st
      else
        { st with
          chunks := st.chunks ++
            [⟨docId, docName, page, st.idx, st.curStart,
              st.curStart + (flushed.length : Int), flushed⟩],
          idx := st.idx + 1 }
    let ovl := getOverlapText ov st.cur
    { chunks := stF.chunks
      idx := stF.idx
      cur := ovl ++ sws
      curStart := st.charPos - (ovl.length : Int)
      charPos := st.charPos + (sws.length : Int) }

/-- `PDFService._create_chunks(text, ...)` with `self.chunk_size = S` and
`self.chunk_overlap = ov` (configured defaults 512 and 50): a text of length
at most `S` becomes a single chunk; otherwise the text is split into
sentences, accumulated by `chunkStep`, and the final non-empty buffer is
flushed as the last chunk. -/
def createChunks (S ov : Nat) (text : List Char) (docId docName : String)
    (page startIdx : Nat) : List ChunkMeta :=
  if text.length ≤ S then
    [⟨docId, docName, page, startIdx, 0, (text.length : Int), text⟩]
  else
    let sentences := splitIntoSentences text
    let st := sentences.foldl (chunkStep S ov docId docName page)
      ⟨[], [], 0, 0, startIdx⟩
    let last := pyStrip st.cur
    if last.isEmpty then st.chunks
    else
      st.chunks ++
        [⟨docId, docName, page, st.idx, st.curStart,
          st.curStart + (last.length : Int), last⟩]

/-- One page of `PDFService.process_pdf`: pages whose raw text strips to the
empty string are skipped before sanitization; all other pages are cleaned by
`cleanText` and chunked by `createChunks`. -/
def processPage (S ov : Nat) (raw : List Char) (docId docName : String)
    (page startIdx : Nat) : List ChunkMeta :=
  if (pyStrip raw).isEmpty then []
  else createChunks S ov (cleanText raw) docId docName page startIdx

/-- Helper of `pyWords`: the accumulator holds the reversed current word. -/
def pyWordsAux : List Char → List Char → List (List Char)
  | [], w => if w.isEmpty then [] else [w.reverse]
  | c :: rest, w =>
    if isStrWs c then
      if w.isEmpty then pyWordsAux rest []
      else w.reverse :: pyWordsAux rest []
    else pyWordsAux rest (c :: w)

/-- Python `text.split()` with no separator: the whitespace-separated words of
the text, empty pieces discarded. -/
def pyWords (t : List Char) : List (List Char) :=
  pyWordsAux t []

/-- Follows the spec's words (§4.1), for comparison with `getOverlapText`:
"the last `min(10 words, all words)` of the flushed buffer", joined by single
spaces. -/
def specOverlapWords (t : List Char) : List Char :=
  let ws := pyWords t
  List.intercalate [' '] (ws.drop (ws.length - min 10 ws.length))

/-! ## Answer assembly (`llm_service.py`) -/

/-- `app.models.schemas.Citation`. -/
structure Citation where
  document_name : String
  page_number : Nat
  text_excerpt : List Char
  relevance_score : ℚ
deriving Repr, DecidableEq, Inhabited

/-- The excerpt built in `LLMService._build_citations`: the first 200
characters of the chunk text, with `"..."` appended when the text was
longer than 200 characters. -/
def mkExcerpt (t : List Char) : List Char :=
  let e := t.take 200
  if 200 < t.length then e ++ ['.', '.', '.'] else e

/-- The `Citation` built from one ranked candidate in
`LLMService._build_citations`: excerpt from the chunk text, score copied. -/
def citationOf (p : ChunkMeta × ℚ) : Citation :=
  ⟨p.1.document_name, p.1.page_number, mkExcerpt p.1.text, p.2⟩

/-- A citation reference returned by the generator: the optional
`source_number` field of one element of the `citations` array
(`ref.get("source_number", 1)` defaults a missing field to 1). -/
abbrev CitationRef := Option Int

/-- The in-range test of `LLMService._build_citations`:
`0 <= source_number - 1 < len(chunks)`. -/
def refValid (n : Nat) (ref : CitationRef) : Bool :=
  let idx := ref.getD 1 - 1
  0 ≤ idx && idx < (n : Int)

/-- `LLMService._build_citations(citation_refs, chunks)`: keep the references
whose `source_number - 1` indexes into `chunks`, turning each into a
`Citation`; if none survive and `chunks` is non-empty, fall back to citations
for `chunks[:3]`. -/
def buildCitations (refs : List CitationRef) (chunks : List (ChunkMeta × ℚ)) :
    List Citation :=
  let cits := (refs.filter (refValid chunks.length)).map
    (fun ref => citationOf (chunks.getD ((ref.getD 1 - 1).toNat) default))
  if cits.isEmpty && !chunks.isEmpty then (chunks.take 3).map citationOf
  else cits

/-- The parseable part of the generator's JSON output consumed by
`LLMService.generate_answer`: optional `answer` and `confidence` fields and a
`citations` array (an unparseable output raises before this structure exists
and is out of scope here). -/
structure LLMResult where
  answer : Option String
  confidence : Option ℚ
  citations : List CitationRef
deriving DecidableEq, Inhabited

/-- `app.models.schemas.QueryResponse`. -/
structure QueryResponse where
  answer : String
  confidence : ℚ
  citations : List Citation
  processing_time_ms : Nat
deriving DecidableEq, Inhabited

/-- The response assembly at the end of `LLMService.generate_answer`:
`answer` defaults when missing, `confidence` is clamped into `[0, 1]` by
`min(max(confidence, 0), 1)` with a default of `0.5`, and citations are built
by `buildCitations`. -/
def generateAnswer (result : LLMResult) (relevantChunks : List (ChunkMeta × ℚ)) :
    QueryResponse :=
  { answer := result.answer.getD "Unable to generate an answer."
    confidence := min (max (result.confidence.getD (1 / 2)) 0) 1
    citations := buildCitations result.citations relevantChunks
    processing_time_ms := 0 }

/-! ## Vector store (`vector_store.py`) -/

/-- An embedding vector (`numpy` float rows modelled as exact rationals). -/
abbrev Vec := List ℚ

/-- Inner product of two vectors (the similarity of `faiss.IndexFlatIP`). -/
def dotQ (a b : Vec) : ℚ :=
  ((a.zip b).map (fun p => p.1 * p.2)).sum

/-- `app.models.schemas.DocumentInfo` (`upload_time` is the wall-clock
timestamp `datetime.now()`, supplied as a parameter). -/
structure DocInfo where
  document_id : String
  filename : String
  upload_time : Nat
  page_count : Nat
  chunk_count : Nat
  file_size : Nat
deriving Repr, DecidableEq, Inhabited

/-- The in-memory state of `VectorStore`: the FAISS index as the ordered list
of its vectors, the chunk-metadata list, and the `documents` dict as an
insertion-ordered association list. -/
structure StoreState where
  index : List Vec
  chunks : List ChunkMeta
  documents : List (String × DocInfo)
deriving DecidableEq, Inhabited

/-- Python `key in dict`. -/
def dictHas (k : String) (d : List (String × DocInfo)) : Bool :=
  d.any (fun p => p.1 == k)

/-- Python `dict[key] = value`: replace in place if present, else append. -/
def dictSet (k : String) (v : DocInfo) :
    List (String × DocInfo) → List (String × DocInfo)
  | [] => [(k, v)]
  | p :: rest => if p.1 == k then (k, v) :: rest else p :: dictSet k v rest

/-- The state made by `VectorStore._initialize()`. -/
def emptyStore : StoreState := ⟨[], [], []⟩

/-- The persisted artifacts (`index.faiss`, `chunks.json`, `documents.json`),
written together by `save()`; `none` when nothing has been saved yet. -/
abbrev Persisted := Option StoreState

/-- `max(c.page_number for c in chunks)` (callers guarantee non-emptiness). -/
def maxPage (chunks : List ChunkMeta) : Nat :=
  (chunks.map (fun c => c.page_number)).foldl max 0

/-- `VectorStore.add_document`: a no-op on an empty chunk list; otherwise the
chunk texts are embedded, the vectors and the chunks are appended in the same
order, the document aggregate is stored, and the new state is persisted by
`save()`. -/
def addDocument (embed : List Char → Vec) (docId filename : String)
    (chunks : List ChunkMeta) (fileSize now : Nat) :
    StoreState × Persisted → StoreState × Persisted
  | (st, disk) =>
    if chunks.isEmpty then (st, disk)
    else
      let st' : StoreState :=
        { index := st.index ++ chunks.map (fun c => embed c.text)
          chunks := st.chunks ++ chunks
          documents := dictSet docId
            ⟨docId, filename, now, maxPage chunks, chunks.length, fileSize⟩
            st.documents }
      (st', some st')

/-- `VectorStore.remove_document`: a no-op returning normally on an unknown
id.  On a present id the source first calls `_initialize()`, which resets the
index AND sets `self.documents = {}`, then re-adds the embeddings of the
surviving chunks and sets `self.chunks = chunks_to_keep` — and then executes
`del self.documents[document_id]` on the freshly emptied dict, which raises
`KeyError` unconditionally, so `self.save()` is never reached.  The call
therefore leaves the instance with the rebuilt index and chunk list but an
empty documents map, leaves the persisted artifacts untouched, and aborts
with the error.  The Boolean in the result records whether `KeyError` was
raised; the state pair is what the mutated instance and the disk hold after
the call. -/
def removeDocument (embed : List Char → Vec) (docId : String) :
    StoreState × Persisted → (StoreState × Persisted) × Bool
  | (st, disk) =>
    if !dictHas docId st.documents then ((st, disk), false)
    else
      let keep := st.chunks.filter (fun c => !(c.document_id == docId))
      ((⟨keep.map (fun c => embed c.text), keep, []⟩, disk), true)

/-- `VectorStore.save()`: write the three collections together. -/
def saveStore : StoreState × Persisted → StoreState × Persisted
  | (st, _) => (st, some st)

/-- `VectorStore._load_or_initialize()`: restore the persisted state when the
artifacts exist, otherwise start from the empty store (also the fallback of
`_load`'s exception handler). -/
def loadStore : StoreState × Persisted → StoreState × Persisted
  | (_, some st₀) => (st₀, some st₀)
  | (_, none) => (emptyStore, none)

/-- The store states (with their persisted artifacts) reachable from a fresh
empty store by any sequence of `add_document`, `remove_document`, `save` and
load operations, for a fixed deterministic embedding capability.  The
`remove` step takes the state pair a `remove_document` call leaves behind:
on a present id the call raises `KeyError`, but the long-lived instance keeps
the mutated in-memory state and the disk keeps the pre-remove artifacts, so
that pair is what later operations observe. -/
inductive Reachable (embed : List Char → Vec) :
    StoreState × Persisted → Prop
  | init : Reachable embed (emptyStore, none)
  | add (docId filename : String) (chunks : List ChunkMeta)
      (fileSize now : Nat) {s} (h : Reachable embed s) :
      Reachable embed (addDocument embed docId filename chunks fileSize now s)
  | remove (docId : String) {s} (h : Reachable embed s) :
      Reachable embed (removeDocument embed docId s).1
  | save {s} (h : Reachable embed s) : Reachable embed (saveStore s)
  | load {s} (h : Reachable embed s) : Reachable embed (loadStore s)

/-- The ranking key of FAISS inner-product search on `(position, score)`
pairs: higher score first, ties broken by the smaller (earlier) position. -/
def keyRel (a b : Nat × ℚ) : Prop :=
  b.2 < a.2 ∨ (a.2 = b.2 ∧ a.1 ≤ b.1)

instance : DecidableRel keyRel := fun a b => by
  unfold keyRel; infer_instance

instance : IsTotal (Nat × ℚ) keyRel where
  total a b := by
    rcases lt_trichotomy a.2 b.2 with h | h | h
    · exact Or.inr (Or.inl h)
    · rcases Nat.le_total a.1 b.1 with h1 | h1
      · exact Or.inl (Or.inr ⟨h, h1⟩)
      · exact Or.inr (Or.inr ⟨h.symm, h1⟩)
    · exact Or.inl (Or.inl h)

instance : IsTrans (Nat × ℚ) keyRel where
  trans a b c hab hbc := by
    rcases hab with hab | ⟨hab, hab1⟩ <;> rcases hbc with hbc | ⟨hbc, hbc1⟩
    · exact Or.inl (hbc.trans hab)
    · exact Or.inl (hbc ▸ hab)
    · exact Or.inl (hab ▸ hbc)
    · exact Or.inr ⟨hab.trans hbc, hab1.trans hbc1⟩

/-- Every stored vector paired with its position and its inner product with
the query vector. -/
def scoredList (q : Vec) (vs : List Vec) : List (Nat × ℚ) :=
  vs.enum.map (fun p => (p.1, dotQ q p.2))

/-- Modelled from the spec: `faiss.IndexFlatIP.search` (external library, not
in `src/`) — exhaustive inner-product scan returning the top `k` stored
vectors by descending score, ties broken by ascending id (§4.3: "select the
top `min(k, size)` by descending score, ties broken by ascending original
position"). -/
def faissSearch (q : Vec) (k : Nat) (vs : List Vec) : List (Nat × ℚ) :=
  (List.insertionSort keyRel (scoredList q vs)).take k

/-- `VectorStore.search(query, top_k)`: empty result on an empty index;
otherwise embed the query, run FAISS with `k = min(top_k, ntotal)`, and keep
the `(chunk, score)` pairs whose index is in range of the chunk list. -/
def storeSearch (embedQ : List Char → Vec) (query : List Char) (topK : Nat)
    (st : StoreState) : List (ChunkMeta × ℚ) :=
  if st.index.length = 0 then []
  else
    let hits := faissSearch (embedQ query) (min topK st.index.length) st.index
    (hits.filter (fun p => p.1 < st.chunks.length)).map
      (fun p => (st.chunks.getD p.1 default, p.2))

/-- The alignment invariant of §3: the vector sequence is exactly the
embedding of the chunk sequence, position for position. -/
def Aligned (embed : List Char → Vec) (st : StoreState) : Prop :=
  st.index = st.chunks.map (fun c => embed c.text)

/-- A concrete deterministic embedding, used only to instantiate theorems at
concrete inputs. -/
def embedLen : List Char → Vec := fun t => [(t.length : ℚ)]

/-- A concrete chunk, used only to instantiate theorems at concrete inputs. -/
def chunkA : ChunkMeta := ⟨"doc1", "a.pdf", 1, 0, 0, 3, "abc".toList⟩

/-- A second concrete chunk belonging to another document. -/
def chunkB : ChunkMeta := ⟨"doc2", "b.pdf", 1, 0, 0, 3, "xyz".toList⟩

/-- A concrete reachable store pair: one document added to the fresh store. -/
def storeA : StoreState × Persisted :=
  addDocument embedLen "doc1" "a.pdf" [chunkA] 3 0 (emptyStore, none)

/-- A concrete store holding two one-chunk documents, used only to
instantiate theorems at concrete inputs. -/
def storeTwo : StoreState :=
  ⟨[embedLen chunkA.text, embedLen chunkB.text], [chunkA, chunkB],
   [("doc1", ⟨"doc1", "a.pdf", 0, 1, 1, 3⟩),
    ("doc2", ⟨"doc2", "b.pdf", 0, 1, 1, 3⟩)]⟩

/-- Bound available for the accumulation buffer of `_create_chunks`: it fits
the chunk size, or it is an overlap-seeded buffer bounded by the overlap
width plus one of the sentences of the page. -/
def BufOk (S ov : Nat) (sents : List (List Char)) (cur : List Char) : Prop :=
  cur.length ≤ S ∨ ∃ s ∈ sents, cur.length ≤ ov + 1 + s.length

/-- The same bound for an emitted chunk's text. -/
def ChunkOk (S ov : Nat) (sents : List (List Char)) (c : ChunkMeta) : Prop :=
  c.text.length ≤ S ∨ ∃ s ∈ sents, c.text.length ≤ ov + 1 + s.length

/-! ## Helper lemmas -/

theorem pyStrip_length_le (t : List Char) : (pyStrip t).length ≤ t.length := by
  unfold pyStrip
  calc ((t.dropWhile isStrWs).reverse.dropWhile isStrWs).reverse.length
      = ((t.dropWhile isStrWs).reverse.dropWhile isStrWs).length := by
        exact List.length_reverse _
    _ ≤ (t.dropWhile isStrWs).reverse.length :=
        (List.dropWhile_sublist _).length_le
    _ = (t.dropWhile isStrWs).length := List.length_reverse _
    _ ≤ t.length := (List.dropWhile_sublist _).length_le

theorem pyFind_start_le {t : List Char} {c : Char} {start i : Nat}
    (h : pyFind t c start = some i) : start ≤ i := by
  unfold pyFind at h
  rcases hf : (t.drop start).findIdx? (fun x => x == c) with _ | j <;>
    rw [hf] at h
  · exact absurd h (by simp)
  · simp only [Option.some.injEq] at h
    omega

theorem getOverlapText_length_le {ov : Nat} (hov : 0 < ov) (t : List Char) :
    (getOverlapText ov t).length ≤ ov := by
  unfold getOverlapText
  by_cases hlen : t.length ≤ ov
  · simp [hlen]
  · simp only [hlen, if_false]
    rcases hf : pyFind t ' ' (t.length - ov) with _ | spacePos
    · simp only [Nat.pos_iff_ne_zero.mp hov, if_false, List.length_drop]
      omega
    · have h1 := pyFind_start_le hf
      simp only [List.length_drop]
      omega

theorem mem_scoredList_fst_lt {q : Vec} {vs : List Vec} {p : Nat × ℚ}
    (h : p ∈ scoredList q vs) : p.1 < vs.length := by
  unfold scoredList at h
  rcases List.mem_map.mp h with ⟨e, he, hpe⟩
  have h1 : e.1 < vs.length := by
    have := List.mem_enum_iff_getElem?.mp he
    exact (List.getElem?_eq_some.mp this).1
  exact hpe ▸ h1

theorem scoredList_length (q : Vec) (vs : List Vec) :
    (scoredList q vs).length = vs.length := by
  simp [scoredList]

theorem storeSearch_mem {embedQ : List Char → Vec} {query : List Char}
    {topK : Nat} {st : StoreState} {p : ChunkMeta × ℚ}
    (h : p ∈ storeSearch embedQ query topK st) : p.1 ∈ st.chunks := by
  unfold storeSearch at h
  by_cases hn : st.index.length = 0
  · simp [hn] at h
  · simp only [hn, if_false] at h
    rcases List.mem_map.mp h with ⟨hit, hhit, hp⟩
    have hlt : hit.1 < st.chunks.length := by
      have := (List.mem_filter.mp hhit).2
      simpa using this
    have : st.chunks.getD hit.1 default ∈ st.chunks := by
      rw [List.getD_eq_getElem _ _ hlt]
      exact List.getElem_mem hlt
    rw [← hp]
    exact this

theorem chunkStep_cur_of_overflow (S ov : Nat) (docId docName : String)
    (page : Nat) (st : CState) (s : List Char)
    (h : ¬ st.cur.length + (s ++ [' ']).length ≤ S) :
    (chunkStep S ov docId docName page st s).cur =
      getOverlapText ov st.cur ++ (s ++ [' ']) := by
  simp only [chunkStep, h, if_false]

theorem chunkStep_cur_of_fit (S ov : Nat) (docId docName : String)
    (page : Nat) (st : CState) (s : List Char)
    (h : st.cur.length + (s ++ [' ']).length ≤ S) :
    (chunkStep S ov docId docName page st s).cur = st.cur ++ (s ++ [' ']) := by
  simp only [chunkStep, h, if_true]

theorem chunkStep_chunks_sub (S ov : Nat) (docId docName : String)
    (page : Nat) (st : CState) (s : List Char) (c : ChunkMeta)
    (hc : c ∈ (chunkStep S ov docId docName page st s).chunks) :
    c ∈ st.chunks ∨ c.text = pyStrip st.cur := by
  unfold chunkStep at hc
  by_cases hfit : st.cur.length + (s ++ [' ']).length ≤ S
  · simp only [hfit, if_true] at hc
    exact Or.inl hc
  · simp only [hfit, if_false] at hc
    by_cases hemp : (pyStrip st.cur).isEmpty
    · simp only [hemp, if_true] at hc
      exact Or.inl hc
    · simp only [hemp, Bool.false_eq_true, if_false, List.append_eq, List.mem_append,
        List.mem_singleton] at hc
      rcases hc with hc | hc
      · exact Or.inl hc
      · exact Or.inr (by rw [hc])

/-! ## C4 — the overlap carried between chunks -/

/-- C4 refuted at a concrete page: with chunk size 60 and chunk overlap 50,
the second chunk is seeded with a character-bounded overlap (the 49-character
suffix `"c3 … r8. "` of the flushed buffer), not with the last
`min(10 words, all words)` of the flushed buffer (which would have produced
`"i9 j0 k1 l2 m3 n4 o5 p6 q7 r8. zzzzz."`). -/
theorem chunk_overlap_not_word_bounded :
    (createChunks 60 50
        "a1 b2 c3 d4 e5 f6 g7 h8 i9 j0 k1 l2 m3 n4 o5 p6 q7 r8. zzzzz. wwww.".toList
        "d" "n" 1 0).map (fun c => c.text) =
      ["a1 b2 c3 d4 e5 f6 g7 h8 i9 j0 k1 l2 m3 n4 o5 p6 q7 r8.".toList,
       "c3 d4 e5 f6 g7 h8 i9 j0 k1 l2 m3 n4 o5 p6 q7 r8. zzzzz.".toList,
       "f6 g7 h8 i9 j0 k1 l2 m3 n4 o5 p6 q7 r8. zzzzz. wwww.".toList] ∧
    "c3 d4 e5 f6 g7 h8 i9 j0 k1 l2 m3 n4 o5 p6 q7 r8. zzzzz.".toList ≠
      pyStrip (specOverlapWords
          "a1 b2 c3 d4 e5 f6 g7 h8 i9 j0 k1 l2 m3 n4 o5 p6 q7 r8.".toList
        ++ [' '] ++ "zzzzz.".toList ++ [' ']) := by
  constructor
  · decide
  · decide

/-- C4 (amended): whenever the accumulation buffer overflows, the next buffer
is seeded with `_get_overlap_text` of the flushed buffer — a suffix bounded by
the configured `chunk_overlap` CHARACTER count (snapped to the first space
inside the last `chunk_overlap` characters), not by a word count — followed by
the current sentence and a space. -/
theorem chunk_overlap_char_bounded (S ov : Nat) (docId docName : String)
    (page : Nat) (st : CState) (s : List Char) (hov : 0 < ov)
    (hoverflow : ¬ st.cur.length + (s ++ [' ']).length ≤ S) :
    (chunkStep S ov docId docName page st s).cur =
      getOverlapText ov st.cur ++ (s ++ [' ']) ∧
    (getOverlapText ov st.cur).length ≤ ov :=
  ⟨chunkStep_cur_of_overflow S ov docId docName page st s hoverflow,
   getOverlapText_length_le hov st.cur⟩

/-- Witness for `chunk_overlap_char_bounded` at a concrete overflowing
buffer. -/
theorem chunk_overlap_char_bounded_witness :
    ((0 < 10 ∧
      ¬ ("aaaa bbbb cccc. ".toList.length +
          ("dddd eeee ffff gggg.".toList ++ [' ']).length ≤ 20)) ∧
     ((chunkStep 20 10 "d" "n" 1 ⟨[], "aaaa bbbb cccc. ".toList, 0, 0, 0⟩
          "dddd eeee ffff gggg.".toList).cur =
        getOverlapText 10 "aaaa bbbb cccc. ".toList ++
          ("dddd eeee ffff gggg.".toList ++ [' ']) ∧
      (getOverlapText 10 "aaaa bbbb cccc. ".toList).length ≤ 10)) :=
  ⟨⟨by decide, by decide⟩,
   chunk_overlap_char_bounded 20 10 "d" "n" 1
     ⟨[], "aaaa bbbb cccc. ".toList, 0, 0, 0⟩
     "dddd eeee ffff gggg.".toList (by decide) (by decide)⟩

/-! ## C5 — chunk length bounds when a page is split -/

theorem foldl_chunkStep_ok (S ov : Nat) (hov : 0 < ov)
    (docId docName : String) (page : Nat) (sents : List (List Char)) :
    ∀ pending : List (List Char), (∀ s ∈ pending, s ∈ sents) →
    ∀ st : CState, BufOk S ov sents st.cur →
    (∀ c ∈ st.chunks, ChunkOk S ov sents c) →
    BufOk S ov sents
      (pending.foldl (chunkStep S ov docId docName page) st).cur ∧
    ∀ c ∈ (pending.foldl (chunkStep S ov docId docName page) st).chunks,
      ChunkOk S ov sents c := by
  intro pending
  induction pending with
  | nil => exact fun _ st hcur hch => ⟨hcur, hch⟩
  | cons s rest ih =>
    intro hsub st hcur hch
    simp only [List.foldl_cons]
    have hs : s ∈ sents := hsub s (List.mem_cons_self _ _)
    apply ih (fun x hx => hsub x (List.mem_cons_of_mem _ hx))
    · by_cases hfit : st.cur.length + (s ++ [' ']).length ≤ S
      · rw [chunkStep_cur_of_fit S ov docId docName page st s hfit]
        left
        simpa using hfit
      · rw [chunkStep_cur_of_overflow S ov docId docName page st s hfit]
        right
        refine ⟨s, hs, ?_⟩
        have hb := getOverlapText_length_le hov st.cur
        simp only [List.length_append, List.length_cons, List.length_nil]
        omega
    · intro c hc
      rcases chunkStep_chunks_sub S ov docId docName page st s c hc with hc | hc
      · exact hch c hc
      · have hlen : c.text.length ≤ st.cur.length := by
          rw [hc]; exact pyStrip_length_le st.cur
        rcases hcur with hcur | ⟨s₀, hs₀, hcur⟩
        · exact Or.inl (hlen.trans hcur)
        · exact Or.inr ⟨s₀, hs₀, hlen.trans hcur⟩

/-- C5 refuted at a concrete page: with chunk size 20 and chunk overlap 10
the page below is split, and the second emitted chunk has 26 > 20 characters
while not being a single sentence of the page (it is the carried overlap
`"cccc."` plus the 20-character second sentence). -/
theorem chunk_length_bound_counterexample :
    20 < "aaaa bbbb cccc. dddd eeee ffff gggg. hhhh.".toList.length ∧
    ∃ c ∈ createChunks 20 10
        "aaaa bbbb cccc. dddd eeee ffff gggg. hhhh.".toList "d" "n" 1 0,
      20 < c.text.length ∧
      c.text ∉ splitIntoSentences
        "aaaa bbbb cccc. dddd eeee ffff gggg. hhhh.".toList := by
  constructor
  · decide
  · decide

/-- C5 (amended): for a positive configured overlap, every chunk emitted by
`_create_chunks` has text length at most the chunk size `S`, or is an
overlap-seeded chunk ending in some sentence `s` of the page and has length
at most `chunk_overlap + 1 + len(s)`; in particular a single sentence longer
than `S` passes through unsplit up to the carried overlap, and a chunk may
exceed `S` (by at most `chunk_overlap + 1`) even when no sentence does. -/
theorem chunk_length_bounded (S ov : Nat) (text : List Char)
    (docId docName : String) (page startIdx : Nat) (hov : 0 < ov)
    (c : ChunkMeta)
    (hc : c ∈ createChunks S ov text docId docName page startIdx) :
    c.text.length ≤ S ∨
    ∃ s ∈ splitIntoSentences text, c.text.length ≤ ov + 1 + s.length := by
  unfold createChunks at hc
  by_cases hlen : text.length ≤ S
  · simp only [hlen, if_true, List.mem_singleton] at hc
    subst hc
    exact Or.inl hlen
  · simp only [hlen, if_false] at hc
    have h := foldl_chunkStep_ok S ov hov docId docName page
      (splitIntoSentences text) (splitIntoSentences text) (fun _ hx => hx)
      ⟨[], [], 0, 0, startIdx⟩ (Or.inl (by simp)) (by intro c hc; simp at hc)
    by_cases hemp : (pyStrip ((splitIntoSentences text).foldl
        (chunkStep S ov docId docName page) ⟨[], [], 0, 0, startIdx⟩).cur).isEmpty
    · simp only [hemp, if_true] at hc
      exact h.2 c hc
    · simp only [hemp, Bool.false_eq_true, if_false, List.append_eq, List.mem_append,
        List.mem_singleton] at hc
      rcases hc with hc | hc
      · exact h.2 c hc
      · have hlt : c.text.length ≤ ((splitIntoSentences text).foldl
            (chunkStep S ov docId docName page) ⟨[], [], 0, 0, startIdx⟩).cur.length := by
          rw [hc]
          exact pyStrip_length_le _
        rcases h.1 with hb | ⟨s₀, hs₀, hb⟩
        · exact Or.inl (hlt.trans hb)
        · exact Or.inr ⟨s₀, hs₀, hlt.trans hb⟩

/-- Witness for `chunk_length_bounded` at a concrete chunk of a concrete
page. -/
theorem chunk_length_bounded_witness :
    (0 < 10 ∧
     (⟨"d", "n", 1, 0, 0, 3, "ab.".toList⟩ : ChunkMeta) ∈
       createChunks 20 10 "ab.".toList "d" "n" 1 0) ∧
    ((⟨"d", "n", 1, 0, 0, 3, "ab.".toList⟩ : ChunkMeta).text.length ≤ 20 ∨
     ∃ s ∈ splitIntoSentences "ab.".toList,
       (⟨"d", "n", 1, 0, 0, 3, "ab.".toList⟩ : ChunkMeta).text.length ≤
         10 + 1 + s.length) :=
  ⟨⟨by decide, by decide⟩,
   chunk_length_bounded 20 10 "ab.".toList "d" "n" 1 0 (by decide)
     ⟨"d", "n", 1, 0, 0, 3, "ab.".toList⟩ (by decide)⟩

/-! ## C10 — `add_document` with an empty chunk list is a complete no-op -/

/-- C10: for every store state, `add_document` called with an empty chunks
list returns without appending vectors, without extending the chunk
metadata, without creating a document entry, and without persisting: the
in-memory state and the persisted artifacts are both left untouched. -/
theorem add_document_empty_chunks_noop (embed : List Char → Vec)
    (docId filename : String) (fileSize now : Nat)
    (st : StoreState) (disk : Persisted) :
    addDocument embed docId filename [] fileSize now (st, disk) = (st, disk) := by
  simp [addDocument]

/-! ## C8 — assembled confidence is clamped into [0, 1] -/

/-- C8: for every parseable generator output, the confidence in the assembled
answer lies in `[0, 1]`; out-of-range values such as `1.5` or `-3` are
clamped silently, never rejected. -/
theorem generate_answer_confidence_clamped (result : LLMResult)
    (relevantChunks : List (ChunkMeta × ℚ)) :
    0 ≤ (generateAnswer result relevantChunks).confidence ∧
    (generateAnswer result relevantChunks).confidence ≤ 1 := by
  unfold generateAnswer
  exact ⟨le_min (le_max_right _ _) zero_le_one, min_le_right _ _⟩

/-! ## C7 — citation filtering and fallback -/

/-- C7: out-of-range citation references (`source_number - 1` outside
`[0, N)`) are dropped silently — the built citations only depend on the
in-range references — and when no reference survives the filtering, exactly
`min(3, N)` fallback citations are emitted for the top-ranked candidates in
rank order, overriding the generator's output. -/
theorem build_citations_filter_fallback (refs : List CitationRef)
    (chunks : List (ChunkMeta × ℚ)) (hN : chunks ≠ []) :
    buildCitations refs chunks =
      buildCitations (refs.filter (refValid chunks.length)) chunks ∧
    (refs.filter (refValid chunks.length) = [] →
      buildCitations refs chunks = (chunks.take 3).map citationOf ∧
      (buildCitations refs chunks).length = min 3 chunks.length) := by
  constructor
  · unfold buildCitations
    rw [List.filter_filter]
    simp only [Bool.and_self]
  · intro hemp
    unfold buildCitations
    rw [hemp]
    have hne : chunks.isEmpty = false := by
      simpa [List.isEmpty_iff] using hN
    simp only [List.map_nil, List.isEmpty_nil, hne, Bool.not_false,
      Bool.and_self, if_true]
    exact ⟨by simp, by simp [List.length_take]⟩

/-- Witness for `build_citations_filter_fallback`: one out-of-range reference
against a single candidate. -/
theorem build_citations_filter_fallback_witness :
    ([(⟨"d", "n", 1, 0, 0, 1, ['a']⟩, (1 : ℚ))] ≠
        ([] : List (ChunkMeta × ℚ))) ∧
    (buildCitations [some 99] [(⟨"d", "n", 1, 0, 0, 1, ['a']⟩, (1 : ℚ))] =
        buildCitations
          (List.filter (refValid 1) [some 99])
          [(⟨"d", "n", 1, 0, 0, 1, ['a']⟩, (1 : ℚ))] ∧
      (List.filter (refValid 1) [some 99] = [] →
        buildCitations [some 99] [(⟨"d", "n", 1, 0, 0, 1, ['a']⟩, (1 : ℚ))] =
          ([(⟨"d", "n", 1, 0, 0, 1, ['a']⟩, (1 : ℚ))].take 3).map citationOf ∧
        (buildCitations [some 99]
            [(⟨"d", "n", 1, 0, 0, 1, ['a']⟩, (1 : ℚ))]).length = min 3 1)) :=
  ⟨by decide,
   build_citations_filter_fallback [some 99]
     [(⟨"d", "n", 1, 0, 0, 1, ['a']⟩, (1 : ℚ))] (by decide)⟩

/-! ## C1 — the alignment invariant over all reachable states -/

theorem reachable_aligned {embed : List Char → Vec}
    {s : StoreState × Persisted} (h : Reachable embed s) :
    Aligned embed s.1 ∧ ∀ st₀, s.2 = some st₀ → Aligned embed st₀ := by
  induction h with
  | init =>
    refine ⟨rfl, ?_⟩
    intro st₀ h
    cases h
  | add docId filename chunks fileSize now h ih =>
    rename_i s
    obtain ⟨st, disk⟩ := s
    unfold addDocument
    by_cases hch : chunks.isEmpty
    · simpa [hch] using ih
    · have hal : Aligned embed
          { index := st.index ++ chunks.map (fun c => embed c.text)
            chunks := st.chunks ++ chunks
            documents := dictSet docId
              ⟨docId, filename, now, maxPage chunks, chunks.length, fileSize⟩
              st.documents } := by
        unfold Aligned at ih ⊢
        simp only [List.map_append]
        rw [ih.1]
      refine ⟨?_, ?_⟩
      · simpa [hch] using hal
      · intro st₀ h0
        simp only [hch, Bool.false_eq_true, if_false, Option.some.injEq] at h0
        rw [← h0]
        exact hal
  | remove docId h ih =>
    rename_i s
    obtain ⟨st, disk⟩ := s
    unfold removeDocument
    by_cases hd : dictHas docId st.documents
    · -- the crash path: the rebuilt in-memory state is aligned by
      -- construction and the untouched disk is aligned by the induction
      -- hypothesis
      simp only [hd, Bool.not_true, Bool.false_eq_true, if_false]
      exact ⟨rfl, ih.2⟩
    · have hd' : dictHas docId st.documents = false := by
        simpa using hd
      simpa [hd'] using ih
  | save h ih =>
    rename_i s
    obtain ⟨st, disk⟩ := s
    refine ⟨ih.1, ?_⟩
    intro st₀ h0
    simp only [saveStore, Option.some.injEq] at h0
    rw [← h0]
    exact ih.1
  | load h ih =>
    rename_i s
    obtain ⟨st, disk⟩ := s
    cases disk with
    | none =>
      refine ⟨rfl, ?_⟩
      intro st₀ h0
      cases h0
    | some st₁ =>
      refine ⟨ih.2 st₁ rfl, ?_⟩
      intro st₀ h0
      simp only [loadStore, Option.some.injEq] at h0
      rw [← h0]
      exact ih.2 st₁ rfl

/-- C1: in every reachable store state — after any sequence of
`add_document`, `remove_document`, `save` and load operations from the empty
store — the index holds exactly as many vectors as there are chunk-metadata
entries and the vector at every position `i` is the embedding of the chunk at
metadata position `i`; the same holds for the persisted copy, so the
invariant survives a persist/reload cycle. -/
theorem store_alignment_invariant (embed : List Char → Vec)
    (s : StoreState × Persisted) (h : Reachable embed s) :
    (s.1.index.length = s.1.chunks.length ∧
     ∀ i : Nat, s.1.index.get? i =
       (s.1.chunks.get? i).map (fun c => embed c.text)) ∧
    ∀ st₀, s.2 = some st₀ →
      st₀.index.length = st₀.chunks.length ∧
      ∀ i : Nat, st₀.index.get? i =
        (st₀.chunks.get? i).map (fun c => embed c.text) := by
  obtain ⟨hmem, hdisk⟩ := reachable_aligned h
  constructor
  · constructor
    · rw [hmem]; simp
    · intro i
      rw [hmem]
      simp [List.get?_eq_getElem?, List.getElem?_map]
  · intro st₀ h0
    have h1 := hdisk st₀ h0
    constructor
    · rw [h1]; simp
    · intro i
      rw [h1]
      simp [List.get?_eq_getElem?, List.getElem?_map]

/-- Witness for `store_alignment_invariant`: the state reached by adding one
concrete document to the fresh store, under a concrete embedding. -/
theorem store_alignment_invariant_witness :
    Reachable embedLen storeA ∧
    ((storeA.1.index.length = storeA.1.chunks.length ∧
      ∀ i : Nat, storeA.1.index.get? i =
        (storeA.1.chunks.get? i).map (fun c => embedLen c.text)) ∧
     ∀ st₀, storeA.2 = some st₀ →
       st₀.index.length = st₀.chunks.length ∧
       ∀ i : Nat, st₀.index.get? i =
         (st₀.chunks.get? i).map (fun c => embedLen c.text)) :=
  ⟨Reachable.add "doc1" "a.pdf" [chunkA] 3 0 Reachable.init,
   store_alignment_invariant embedLen storeA
     (Reachable.add "doc1" "a.pdf" [chunkA] 3 0 Reachable.init)⟩

/-! ## C2 — search returns the top `min(k, n)` pairs -/

/-- C2: `search` on an empty store returns the empty list; on a store whose
chunk metadata is aligned in length with the index it returns the
`min(k, n)` stored positions ranked first by descending inner-product score
with the query embedding, ties broken by ascending insertion position (there
is a split of all scored positions into the selected prefix `sel` and the
rest, with every selected entry ranked at least as high as every rejected
one), mapped to their `(chunk, score)` pairs, and the returned scores are
non-increasing. -/
theorem search_top_k (embedQ : List Char → Vec) (query : List Char) (k : Nat)
    (st : StoreState) (h : st.chunks.length = st.index.length) :
    (st.index = [] → storeSearch embedQ query k st = []) ∧
    ∃ sel rest : List (Nat × ℚ),
      List.Perm (scoredList (embedQ query) st.index) (sel ++ rest) ∧
      sel.length = min k st.index.length ∧
      List.Sorted keyRel sel ∧
      (∀ a ∈ sel, ∀ b ∈ rest, keyRel a b) ∧
      storeSearch embedQ query k st =
        sel.map (fun p => (st.chunks.getD p.1 default, p.2)) ∧
      List.Pairwise (fun x y : ChunkMeta × ℚ => y.2 ≤ x.2)
        (storeSearch embedQ query k st) := by
  have hempty : st.index = [] → storeSearch embedQ query k st = [] := by
    intro he
    simp [storeSearch, he]
  set q := embedQ query with hq
  set L := List.insertionSort keyRel (scoredList q st.index) with hL
  set m := min k st.index.length with hm
  have hLlen : L.length = st.index.length := by
    rw [hL, (List.perm_insertionSort keyRel _).length_eq]
    exact scoredList_length q st.index
  have hperm : List.Perm (scoredList q st.index) (L.take m ++ L.drop m) := by
    rw [List.take_append_drop]
    exact (List.perm_insertionSort keyRel _).symm
  have hsel_len : (L.take m).length = m := by
    rw [List.length_take, hLlen]
    exact Nat.min_eq_left (hm ▸ Nat.min_le_right k st.index.length)
  have hsorted : List.Sorted keyRel (L.take m) :=
    List.Pairwise.sublist (List.take_sublist m L)
      (List.sorted_insertionSort keyRel _)
  have hcross : ∀ a ∈ L.take m, ∀ b ∈ L.drop m, keyRel a b := by
    have hs : List.Sorted keyRel (L.take m ++ L.drop m) := by
      rw [List.take_append_drop]
      exact List.sorted_insertionSort keyRel _
    exact (List.pairwise_append.mp hs).2.2
  have hin : ∀ p ∈ L.take m, p.1 < st.chunks.length := by
    intro p hp
    have hpL : p ∈ L := (List.take_sublist m L).subset hp
    have hpS : p ∈ scoredList q st.index :=
      (List.perm_insertionSort keyRel _).subset hpL
    rw [h]
    exact mem_scoredList_fst_lt hpS
  have heq : storeSearch embedQ query k st =
      (L.take m).map (fun p => (st.chunks.getD p.1 default, p.2)) := by
    by_cases hn : st.index.length = 0
    · have he : st.index = [] := List.length_eq_zero.mp hn
      have hm0 : m = 0 := by
        rw [hm, hn]
        exact Nat.min_zero k
      rw [hempty he, hm0, List.take_zero, List.map_nil]
    · simp only [storeSearch, hn, if_false]
      have hf : faissSearch q m st.index = L.take m := rfl
      rw [hf, List.filter_eq_self.mpr
        (fun p hp => decide_eq_true (hin p hp))]
  have hpair : List.Pairwise (fun x y : ChunkMeta × ℚ => y.2 ≤ x.2)
      (storeSearch embedQ query k st) := by
    rw [heq]
    refine List.Pairwise.map _ ?_ hsorted
    intro a b hab
    rcases hab with hab | ⟨hab, _⟩
    · exact le_of_lt hab
    · exact le_of_eq hab.symm
  exact ⟨hempty, L.take m, L.drop m, hperm, hsel_len, hsorted, hcross,
    heq, hpair⟩

/-- Witness for `search_top_k`: a concrete aligned three-vector store with a
tie between positions 0 and 2. -/
theorem search_top_k_witness :
    (StoreState.mk [[1], [2], [1]] [chunkA, chunkB, chunkA] []).chunks.length =
      (StoreState.mk [[1], [2], [1]] [chunkA, chunkB, chunkA] []).index.length ∧
    (((StoreState.mk [[1], [2], [1]] [chunkA, chunkB, chunkA] []).index = [] →
      storeSearch embedLen "q".toList 2
        (StoreState.mk [[1], [2], [1]] [chunkA, chunkB, chunkA] []) = []) ∧
    ∃ sel rest : List (Nat × ℚ),
      List.Perm
        (scoredList (embedLen "q".toList)
          (StoreState.mk [[1], [2], [1]] [chunkA, chunkB, chunkA] []).index)
        (sel ++ rest) ∧
      sel.length = min 2
        (StoreState.mk [[1], [2], [1]] [chunkA, chunkB, chunkA] []).index.length ∧
      List.Sorted keyRel sel ∧
      (∀ a ∈ sel, ∀ b ∈ rest, keyRel a b) ∧
      storeSearch embedLen "q".toList 2
          (StoreState.mk [[1], [2], [1]] [chunkA, chunkB, chunkA] []) =
        sel.map (fun p =>
          ((StoreState.mk [[1], [2], [1]]
            [chunkA, chunkB, chunkA] []).chunks.getD p.1 default, p.2)) ∧
      List.Pairwise (fun x y : ChunkMeta × ℚ => y.2 ≤ x.2)
        (storeSearch embedLen "q".toList 2
          (StoreState.mk [[1], [2], [1]] [chunkA, chunkB, chunkA] []))) :=
  ⟨rfl,
   search_top_k embedLen "q".toList 2
     (StoreState.mk [[1], [2], [1]] [chunkA, chunkB, chunkA] []) rfl⟩

/-! ## C3 — `remove_document` crashes before persisting -/

/-- C3 evaluated at the failing input: removing the present id `"doc1"` from
a two-document store whose state was previously persisted.  `_initialize()`
has already emptied `self.documents` when `del self.documents[document_id]`
runs, so the call raises `KeyError` (the Boolean `true` below): the surviving
in-memory chunks are correct, but EVERY document entry is wiped (`"doc2"`
included, not just `"doc1"`), `save()` is never reached so the pre-remove
artifacts stay on disk, and after a reload a search again returns a chunk of
the supposedly removed document. -/
theorem remove_document_keyerror_eval :
    removeDocument embedLen "doc1" (storeTwo, some storeTwo) =
      ((⟨[embedLen chunkB.text], [chunkB], []⟩, some storeTwo), true) ∧
    dictHas "doc2"
      ((removeDocument embedLen "doc1"
        (storeTwo, some storeTwo)).1.1.documents) = false ∧
    (loadStore (removeDocument embedLen "doc1"
        (storeTwo, some storeTwo)).1).1 = storeTwo ∧
    storeSearch embedLen "q".toList 2
        (loadStore (removeDocument embedLen "doc1"
          (storeTwo, some storeTwo)).1).1 =
      [(chunkA, 3), (chunkB, 3)] ∧
    chunkA.document_id = "doc1" := by
  refine ⟨by decide, by decide, by decide, ?_, rfl⟩
  norm_num [storeSearch, faissSearch, scoredList, dotQ, embedLen, keyRel,
    storeTwo, chunkA, chunkB, loadStore, removeDocument, dictHas,
    List.enum, List.enumFrom]

/-! ## C9 — behaviour when the alignment invariant is violated -/

/-- C9 refuted at a concrete misaligned store (two vectors, one chunk): the
search that selects the out-of-range position 1 does not abort — it returns
normally, silently dropping that entry (one result instead of
`min(top_k, ntotal) = 2`). -/
theorem search_consistency_counterexample :
    storeSearch embedLen "q".toList 5
        (StoreState.mk [[1], [1]] [chunkA] []) = [(chunkA, 1)] ∧
    (storeSearch embedLen "q".toList 5
        (StoreState.mk [[1], [1]] [chunkA] [])).length <
      min 5 (StoreState.mk [[1], [1]] [chunkA] []).index.length := by
  have h : storeSearch embedLen "q".toList 5
      (StoreState.mk [[1], [1]] [chunkA] []) = [(chunkA, 1)] := by
    norm_num [storeSearch, faissSearch, scoredList, dotQ, embedLen, keyRel,
      List.enum, List.enumFrom]
  refine ⟨h, ?_⟩
  rw [h]
  norm_num

/-- C9 (amended): when the index holds a vector position with no
corresponding chunk-metadata entry, `search` does not abort; it silently
skips every such position — the result is always a normal list, never longer
than `min(min(top_k, ntotal), len(chunks))`, and every returned chunk really
is a stored chunk-metadata entry. -/
theorem search_skips_out_of_range (embedQ : List Char → Vec)
    (query : List Char) (k : Nat) (st : StoreState) :
    (storeSearch embedQ query k st).length ≤
      min (min k st.index.length) st.chunks.length ∧
    ∀ p ∈ storeSearch embedQ query k st, p.1 ∈ st.chunks := by
  refine ⟨?_, fun p hp => storeSearch_mem hp⟩
  by_cases hn : st.index.length = 0
  · simp [storeSearch, hn]
  · have hres : storeSearch embedQ query k st =
        ((faissSearch (embedQ query) (min k st.index.length)
            st.index).filter (fun p => p.1 < st.chunks.length)).map
          (fun p => (st.chunks.getD p.1 default, p.2)) := by
      simp only [storeSearch, hn, if_false]
    rw [hres, List.length_map]
    refine le_min ?_ ?_
    · calc ((faissSearch (embedQ query) (min k st.index.length)
            st.index).filter (fun p => p.1 < st.chunks.length)).length
          ≤ (faissSearch (embedQ query) (min k st.index.length)
              st.index).length := List.length_filter_le _ _
        _ ≤ min k st.index.length := by
            unfold faissSearch
            simp [List.length_take]
    · have hnodup : (((faissSearch (embedQ query) (min k st.index.length)
          st.index).filter
            (fun p => p.1 < st.chunks.length)).map Prod.fst).Nodup := by
        have hperm : List.Perm
            ((List.insertionSort keyRel
              (scoredList (embedQ query) st.index)).map Prod.fst)
            ((scoredList (embedQ query) st.index).map Prod.fst) :=
          (List.perm_insertionSort keyRel _).map Prod.fst
        have hfst : (scoredList (embedQ query) st.index).map Prod.fst =
            st.index.enum.map Prod.fst := by
          simp only [scoredList, List.map_map]
          rfl
        have hnd : ((List.insertionSort keyRel
            (scoredList (embedQ query) st.index)).map Prod.fst).Nodup := by
          rw [List.Perm.nodup_iff hperm, hfst]
          exact List.nodup_enum_map_fst _
        have hsub : List.Sublist
            (((faissSearch (embedQ query) (min k st.index.length)
              st.index).filter (fun p => p.1 < st.chunks.length)).map
                Prod.fst)
            ((List.insertionSort keyRel
              (scoredList (embedQ query) st.index)).map Prod.fst) := by
          apply List.Sublist.map
          exact (List.filter_sublist _).trans (List.take_sublist _ _)
        exact hsub.nodup hnd
      have hsubset : ∀ x ∈ ((faissSearch (embedQ query)
          (min k st.index.length) st.index).filter
            (fun p => p.1 < st.chunks.length)).map Prod.fst,
          x ∈ List.range st.chunks.length := by
        intro x hx
        rcases List.mem_map.mp hx with ⟨p, hp, hpx⟩
        have := (List.mem_filter.mp hp).2
        rw [List.mem_range, ← hpx]
        simpa using this
      calc ((faissSearch (embedQ query) (min k st.index.length)
            st.index).filter (fun p => p.1 < st.chunks.length)).length
          = (((faissSearch (embedQ query) (min k st.index.length)
              st.index).filter
                (fun p => p.1 < st.chunks.length)).map Prod.fst).length := by
            rw [List.length_map]
        _ ≤ (List.range st.chunks.length).length :=
            (List.subperm_of_subset hnodup hsubset).length_le
        _ = st.chunks.length := List.length_range _

/-! ## C6 — empty sanitized text -/

/-- C6 evaluated at the failing input: a page whose raw text is the single
control character `'\x01'` passes the raw `text.strip()` guard of
`process_pdf`, sanitizes to the empty string, and yields one chunk whose
text is empty — not the empty chunk sequence the spec requires. -/
theorem empty_sanitized_page_emits_empty_chunk :
    cleanText ['\x01'] = [] ∧
    processPage 512 50 ['\x01'] "d" "n" 1 0 =
      [⟨"d", "n", 1, 0, 0, 0, []⟩] := by
  constructor
  · decide
  · decide

end InsightAgent
